import Mathlib

/-!
Verification of the streaming function-call extraction, incremental render-diff
and at-most-once auto-execution orchestrator of MCP-SuperAssistant
(src/pages/content/src/render_prescript/src/renderer/functionBlock.ts).

Raw text is modelled as List Char.  The incremental parameter-extraction pass
(functionBlock.ts lines 559-595) is embedded by transliterating the regex
  <parameter\s+name="([^"]+)"[^>]*>
(with the JS regex engine's leftmost-match, greedy-with-backtracking
behaviour made explicit), the indexOf search for the closing tag, and the
CDATA / trim post-processing of each extracted value.
-/

/-- The whitespace class used for the JS regex \s and String.trim
    (ASCII whitespace plus NBSP and BOM, the characters that occur in
    practice). -/
def jsWsB (c : Char) : Bool :=
  c = ' ' || c = '\t' || c = '\n' || c = '\r' || c = '\x0b' || c = '\x0c' ||
  c = ' ' || c = '﻿'

/-- JS String.prototype.trim on char lists: drop whitespace at both ends. -/
def jsTrim (s : List Char) : List Char :=
  ((s.dropWhile jsWsB).reverse.dropWhile jsWsB).reverse

/-- Match a literal at the head of the input; on success return the rest.
    This is the deterministic core of matching a literal regex fragment. -/
def dropLit : List Char → List Char → Option (List Char)
  | [], s => some s
  | _ :: _, [] => none
  | p :: ps, c :: cs => if c = p then dropLit ps cs else none

/-- Match the regex fragment \s+ at the head of the input (greedy; the
    following literal in the patterns used here never starts with
    whitespace, so the greedy match never backtracks). -/
def dropWs1 : List Char → Option (List Char)
  | [] => none
  | c :: cs => if jsWsB c then some (cs.dropWhile jsWsB) else none

/-- Match the regex fragment ([^q]+)q for a stopper character q: a nonempty
    capture of non-stopper characters followed by the stopper. -/
def takeCap (stop : Char) (s : List Char) : Option (List Char × List Char) :=
  match s.takeWhile (· ≠ stop), s.dropWhile (· ≠ stop) with
  | _, [] => none
  | [], _ :: _ => none
  | c :: cap, _ :: rest => some (c :: cap, rest)

/-- Match the regex fragment [^>]*> (skip to and consume the next >). -/
def skipToGt (s : List Char) : Option (List Char) :=
  match s.dropWhile (· ≠ '>') with
  | [] => none
  | _ :: rest => some rest

/-- Attempt to match the parameter start-tag regex
    <parameter\s+name="([^"]+)"[^>]*>  anchored at the head of the input.
    Returns the captured parameter name and the input rest (the text right
    after the closing >, i.e. the regex lastIndex position). -/
def matchStartAt (s : List Char) : Option (List Char × List Char) :=
  (dropLit ("<parameter").toList s).bind fun r1 =>
  (dropWs1 r1).bind fun r2 =>
  (dropLit ("name=").toList r2).bind fun r2a =>
  (dropLit ['"'] r2a).bind fun r3 =>
  (takeCap '"' r3).bind fun p =>
  (skipToGt p.2).map fun r5 => (p.1, r5)

theorem dropLit_length {pat s r : List Char} (h : dropLit pat s = some r) :
    r.length + pat.length = s.length := by
  induction pat generalizing s with
  | nil => simp [dropLit] at h; simp [h]
  | cons p ps ih =>
    cases s with
    | nil => simp [dropLit] at h
    | cons c cs =>
      simp only [dropLit] at h
      split at h
      · have := ih h; simp [List.length_cons]; omega
      · exact absurd h (by simp)

theorem dropWhile_length_le (p : Char → Bool) (s : List Char) :
    (s.dropWhile p).length ≤ s.length := by
  induction s with
  | nil => simp
  | cons c cs ih =>
    by_cases h : p c
    · simp [List.dropWhile, h]; omega
    · simp [List.dropWhile, h]

theorem dropWs1_length {s r : List Char} (h : dropWs1 s = some r) :
    r.length < s.length := by
  cases s with
  | nil => simp [dropWs1] at h
  | cons c cs =>
    simp only [dropWs1] at h
    split at h
    · cases h
      have := dropWhile_length_le jsWsB cs
      simp; omega
    · exact absurd h (by simp)

theorem takeCap_length {stop : Char} {s : List Char} {p : List Char × List Char}
    (h : takeCap stop s = some p) : p.2.length < s.length := by
  unfold takeCap at h
  rcases hd : s.dropWhile (· ≠ stop) with _ | ⟨c, rest⟩ <;> rw [hd] at h
  · exact absurd h (by simp)
  · rcases ht : s.takeWhile (· ≠ stop) with _ | ⟨c', cap⟩ <;> rw [ht] at h
    · exact absurd h (by simp)
    · cases h
      have h1 : (s.dropWhile (· ≠ stop)).length ≤ s.length :=
        dropWhile_length_le _ s
      rw [hd] at h1
      simp at h1 ⊢
      omega

theorem skipToGt_length {s r : List Char} (h : skipToGt s = some r) :
    r.length < s.length := by
  unfold skipToGt at h
  rcases hd : s.dropWhile (· ≠ '>') with _ | ⟨c, rest⟩ <;> rw [hd] at h
  · exact absurd h (by simp)
  · cases h
    have h1 : (s.dropWhile (· ≠ '>')).length ≤ s.length := dropWhile_length_le _ s
    rw [hd] at h1
    simp at h1
    omega

theorem matchStartAt_length {s : List Char} {nm rest : List Char}
    (h : matchStartAt s = some (nm, rest)) : rest.length < s.length := by
  unfold matchStartAt at h
  obtain ⟨r1, h1, h⟩ := Option.bind_eq_some.mp h
  obtain ⟨r2, h2, h⟩ := Option.bind_eq_some.mp h
  obtain ⟨r2a, h3, h⟩ := Option.bind_eq_some.mp h
  obtain ⟨r3, h4, h⟩ := Option.bind_eq_some.mp h
  obtain ⟨p, h5, h⟩ := Option.bind_eq_some.mp h
  obtain ⟨r5, h6, h7⟩ := Option.map_eq_some'.mp h
  have l1 := dropLit_length h1
  have l2 := dropWs1_length h2
  have l3 := dropLit_length h3
  have l4 := dropLit_length h4
  have l5 := takeCap_length h5
  have l6 := skipToGt_length h6
  have hrest : rest = r5 := congrArg Prod.snd h7.symm
  subst hrest
  omega

/-- One pass of the global regex scan: at each position try to match the
    parameter start tag; on success record (name, rest-after-tag) and resume
    the scan at the regex lastIndex, otherwise advance one character (the JS
    regex engine's successive start positions).  fuel bounds the recursion
    and is always instantiated with the input length, which is sufficient
    (see scanGo_fuel_irrelevant). -/
def scanGo : ℕ → List Char → List (List Char × List Char)
  | 0, _ => []
  | _ + 1, [] => []
  | fuel + 1, c :: cs =>
    match matchStartAt (c :: cs) with
    | some (nm, rest) => (nm, rest) :: scanGo fuel rest
    | none => scanGo fuel cs

/-- All parameter start-tag matches of the raw text, in document order,
    paired with the text following each start tag. -/
def scanParamTags (s : List Char) : List (List Char × List Char) :=
  scanGo s.length s

theorem scanGo_fuel_irrelevant :
    ∀ (f₁ f₂ : ℕ) (s : List Char), s.length ≤ f₁ → s.length ≤ f₂ →
      scanGo f₁ s = scanGo f₂ s := by
  intro f₁
  induction f₁ using Nat.strong_induction_on with
  | _ f₁ ih =>
    intro f₂ s h₁ h₂
    cases f₁ with
    | zero =>
      have : s = [] := List.length_eq_zero.mp (Nat.le_zero.mp h₁)
      subst this
      cases f₂ <;> simp [scanGo]
    | succ f₁ =>
      cases f₂ with
      | zero =>
        have : s = [] := List.length_eq_zero.mp (Nat.le_zero.mp h₂)
        subst this
        simp [scanGo]
      | succ f₂ =>
        cases s with
        | nil => simp [scanGo]
        | cons c cs =>
          rcases hm : matchStartAt (c :: cs) with _ | ⟨nm, rest⟩
          · have hcs₁ : cs.length ≤ f₁ := by
              simp only [List.length_cons] at h₁; omega
            have hcs₂ : cs.length ≤ f₂ := by
              simp only [List.length_cons] at h₂; omega
            simp only [scanGo, hm]
            exact ih f₁ (Nat.lt_succ_self f₁) f₂ cs hcs₁ hcs₂
          · have hr := matchStartAt_length hm
            simp only [List.length_cons] at h₁ h₂ hr
            have hr₁ : rest.length ≤ f₁ := by omega
            have hr₂ : rest.length ≤ f₂ := by omega
            simp only [scanGo, hm]
            rw [ih f₁ (Nat.lt_succ_self f₁) f₂ rest hr₁ hr₂]

/-- First index at which pat occurs as a contiguous sublist of s
    (String.prototype.indexOf).  none when pat does not occur. -/
def indexOfSub (pat : List Char) : List Char → Option ℕ
  | [] => if pat = [] then some 0 else none
  | c :: cs =>
    if pat.isPrefixOf (c :: cs) then some 0
    else (indexOfSub pat cs).map (· + 1)

/-- Whether pat occurs as a contiguous sublist of s. -/
def containsSub (pat s : List Char) : Bool := (indexOfSub pat s).isSome

/-- Whether pat is a suffix of s (boolean form). -/
def endsLit (pat s : List Char) : Bool := pat.reverse.isPrefixOf s.reverse

def cdataOpenLit : List Char := ("<![CDATA[").toList

def cdataCloseLit : List Char := ("]]" ++ ">").toList

def closeTagLit : List Char := ("</parameter>").toList

/-- CDATA / trim post-processing of one extracted parameter value
    (functionBlock.ts lines 580-588).  The regex
      <!\[CDATA\[(.*?)(?:\]\]>)?$   (s flag)
    matches at the first occurrence of the CDATA opener; its lazy capture
    runs to the end of the value with an optional complete trailing ]]>
    excluded.  When the regex matches, the value is replaced by the capture
    (prefix before the opener dropped, whitespace preserved, a complete
    trailing ]]> dropped, a partial trailing terminator kept); otherwise the
    value is trimmed. -/
def postProcessValue (v : List Char) : List Char :=
  match indexOfSub cdataOpenLit v with
  | some i =>
    let rest := v.drop (i + cdataOpenLit.length)
    if endsLit cdataCloseLit rest then rest.take (rest.length - cdataCloseLit.length)
    else rest
  | none => jsTrim v

/-- One extracted parameter: name, post-processed value, streaming flag. -/
structure ParamEntry where
  pname : List Char
  pvalue : List Char
  streaming : Bool
deriving DecidableEq, Repr

/-- Build the entry for a parameter whose start tag is followed by tail
    (functionBlock.ts lines 563-590): search tail for the first closing
    </parameter>; if present the value is the text before it (complete),
    otherwise the whole tail (streaming); then post-process. -/
def mkEntry (nm tail : List Char) : ParamEntry :=
  match indexOfSub closeTagLit tail with
  | some i => ⟨nm, postProcessValue (tail.take i), false⟩
  | none => ⟨nm, postProcessValue tail, true⟩

/-- The incremental parameter-extraction pass (functionBlock.ts lines
    559-595): every parameter start-tag match of the raw text in document
    order, each resolved to a final (closed) or streaming (unclosed) value. -/
def extractParams (s : List Char) : List ParamEntry :=
  (scanParamTags s).map fun p => mkEntry p.1 p.2

theorem dropLit_suffix {pat s r : List Char} (h : dropLit pat s = some r) :
    r <:+ s := by
  induction pat generalizing s with
  | nil => simp [dropLit] at h; simp [h]
  | cons p ps ih =>
    cases s with
    | nil => simp [dropLit] at h
    | cons c cs =>
      simp only [dropLit] at h
      split at h
      · exact (ih h).trans (List.suffix_cons c cs)
      · exact absurd h (by simp)

theorem dropWs1_suffix {s r : List Char} (h : dropWs1 s = some r) : r <:+ s := by
  cases s with
  | nil => simp [dropWs1] at h
  | cons c cs =>
    simp only [dropWs1] at h
    split at h
    · cases h
      exact (List.dropWhile_suffix jsWsB).trans (List.suffix_cons c cs)
    · exact absurd h (by simp)

theorem takeCap_suffix {stop : Char} {s : List Char} {p : List Char × List Char}
    (h : takeCap stop s = some p) : p.2 <:+ s := by
  unfold takeCap at h
  rcases hd : s.dropWhile (· ≠ stop) with _ | ⟨c, rest⟩ <;> rw [hd] at h
  · exact absurd h (by simp)
  · rcases ht : s.takeWhile (· ≠ stop) with _ | ⟨c', cap⟩ <;> rw [ht] at h
    · exact absurd h (by simp)
    · cases h
      have h1 : rest <:+ s.dropWhile (· ≠ stop) := by
        rw [hd]; exact List.suffix_cons c rest
      exact h1.trans (List.dropWhile_suffix _)

theorem skipToGt_suffix {s r : List Char} (h : skipToGt s = some r) : r <:+ s := by
  unfold skipToGt at h
  rcases hd : s.dropWhile (· ≠ '>') with _ | ⟨c, rest⟩ <;> rw [hd] at h
  · exact absurd h (by simp)
  · cases h
    have h1 : r <:+ s.dropWhile (· ≠ '>') := by
      rw [hd]; exact List.suffix_cons c r
    exact h1.trans (List.dropWhile_suffix _)

theorem matchStartAt_suffix {s : List Char} {nm rest : List Char}
    (h : matchStartAt s = some (nm, rest)) : rest <:+ s := by
  unfold matchStartAt at h
  obtain ⟨r1, h1, h⟩ := Option.bind_eq_some.mp h
  obtain ⟨r2, h2, h⟩ := Option.bind_eq_some.mp h
  obtain ⟨r2a, h3, h⟩ := Option.bind_eq_some.mp h
  obtain ⟨r3, h4, h⟩ := Option.bind_eq_some.mp h
  obtain ⟨p, h5, h⟩ := Option.bind_eq_some.mp h
  obtain ⟨r5, h6, h7⟩ := Option.map_eq_some'.mp h
  have hrest : rest = r5 := congrArg Prod.snd h7.symm
  subst hrest
  exact ((((skipToGt_suffix h6).trans (takeCap_suffix h5)).trans
    (dropLit_suffix h4)).trans (dropLit_suffix h3)).trans
    ((dropWs1_suffix h2).trans (dropLit_suffix h1))

theorem scanGo_tail_suffix :
    ∀ (fuel : ℕ) (s : List Char) (nm t : List Char),
      (nm, t) ∈ scanGo fuel s → t <:+ s := by
  intro fuel
  induction fuel with
  | zero => intro s nm t h; simp [scanGo] at h
  | succ fuel ih =>
    intro s nm t h
    cases s with
    | nil => simp [scanGo] at h
    | cons c cs =>
      rcases hm : matchStartAt (c :: cs) with _ | ⟨nm', rest⟩ <;>
        simp only [scanGo, hm] at h
      · exact (ih cs nm t h).trans (List.suffix_cons c cs)
      · rcases List.mem_cons.mp h with h | h
        · have : t = rest := congrArg Prod.snd h
          rw [this]
          exact matchStartAt_suffix hm
        · exact (ih rest nm t h).trans (matchStartAt_suffix hm)

theorem containsSub_of_suffix {pat t s : List Char} (hsuf : t <:+ s)
    (h : containsSub pat t = true) : containsSub pat s = true := by
  obtain ⟨u, rfl⟩ := hsuf
  induction u with
  | nil => simpa using h
  | cons a u ih =>
    unfold containsSub indexOfSub
    by_cases hp : pat.isPrefixOf (a :: (u ++ t))
    · simp [hp]
    · simp only [hp, if_false, List.cons_append]
      unfold containsSub at ih
      simpa [Option.isSome_map] using ih

theorem mkEntry_streaming_iff (nm t : List Char) :
    (mkEntry nm t).streaming = true ↔ containsSub closeTagLit t = false := by
  unfold mkEntry containsSub
  rcases h : indexOfSub closeTagLit t with _ | i <;> simp [h]

theorem extractGo_streaming_chain (fuel : ℕ) (s : List Char) :
    List.Chain' (fun a b => a.streaming = true → b.streaming = true)
      ((scanGo fuel s).map fun p => mkEntry p.1 p.2) := by
  induction fuel generalizing s with
  | zero => simp [scanGo]
  | succ fuel ih =>
    cases s with
    | nil => simp [scanGo]
    | cons c cs =>
      rcases hm : matchStartAt (c :: cs) with _ | ⟨nm, rest⟩ <;>
        simp only [scanGo, hm]
      · exact ih cs
      · rw [List.map_cons]
        refine List.chain'_cons'.mpr ⟨?_, ih rest⟩
        intro b hb hstr
        rcases hh : scanGo fuel rest with _ | ⟨p, l'⟩
        · rw [hh] at hb; simp at hb
        · rw [hh] at hb
          simp only [List.map_cons, List.head?_cons, Option.mem_def,
            Option.some.injEq] at hb
          subst hb
          have hmem : (p.1, p.2) ∈ scanGo fuel rest := by
            rw [hh, Prod.mk.eta]; exact List.mem_cons_self p l'
          have hsuf := scanGo_tail_suffix fuel rest p.1 p.2 hmem
          have h1 : containsSub closeTagLit rest = false :=
            (mkEntry_streaming_iff nm rest).mp hstr
          have h2 : containsSub closeTagLit p.2 = false := by
            by_contra hc
            have hc' : containsSub closeTagLit p.2 = true := by
              cases hb2 : containsSub closeTagLit p.2
              · exact absurd hb2 hc
              · rfl
            have := containsSub_of_suffix hsuf hc'
            rw [h1] at this
            exact absurd this (by simp)
          exact (mkEntry_streaming_iff p.1 p.2).mpr h2

/-- The streaming prefix of the spec's incremental-arrival scenario. -/
def scenarioStreamingRaw : List Char :=
  ("<function_calls><invoke name=\"search\" call_id=\"c1\"><parameter name=\"q\">hel").toList

/-- The completed text of the spec's incremental-arrival scenario. -/
def scenarioCompleteRaw : List Char :=
  scenarioStreamingRaw ++ (" lo</parameter></invoke></function_calls>").toList

/-- Claim C6: for every raw text, the parameter-extraction pass resolves each
    parameter start tag in document order; a parameter whose closing tag is
    present gets its final (post-processed) value and is not marked streaming,
    a parameter with no closing tag after its start tag gets the partial text
    seen so far and is marked streaming, streaming entries only trail
    non-streaming ones (so the single unclosed trailing parameter of a
    well-formed stream is exactly the one marked streaming), the pass is a
    total function (never throws), and the spec's hel / hel lo scenario
    evaluates as stated. -/
theorem c6_param_extraction_streaming :
    (∀ (s nm t : List Char), (nm, t) ∈ scanParamTags s →
        t <:+ s ∧
        (∀ i, indexOfSub closeTagLit t = some i →
            mkEntry nm t = ⟨nm, postProcessValue (t.take i), false⟩) ∧
        (indexOfSub closeTagLit t = none →
            mkEntry nm t = ⟨nm, postProcessValue t, true⟩)) ∧
    (∀ s : List Char,
        List.Chain' (fun a b => a.streaming = true → b.streaming = true)
          (extractParams s)) ∧
    extractParams scenarioStreamingRaw =
      [⟨("q").toList, ("hel").toList, true⟩] ∧
    extractParams scenarioCompleteRaw =
      [⟨("q").toList, ("hel lo").toList, false⟩] := by
  refine ⟨?_, ?_, ?_, ?_⟩
  · intro s nm t hmem
    refine ⟨scanGo_tail_suffix s.length s nm t hmem, ?_, ?_⟩
    · intro i hi
      unfold mkEntry
      rw [hi]
    · intro hi
      unfold mkEntry
      rw [hi]
  · intro s
    exact extractGo_streaming_chain s.length s
  · decide
  · decide

/-- Witness for C6 at the concrete streaming scenario. -/
theorem c6_param_extraction_streaming_witness :
    ("hel").toList <:+ scenarioStreamingRaw ∧
    mkEntry ("q").toList ("hel").toList =
      ⟨("q").toList, postProcessValue ("hel").toList, true⟩ := by
  have h := c6_param_extraction_streaming.1 scenarioStreamingRaw
    ("q").toList ("hel").toList (by decide)
  exact ⟨h.1, h.2.2 (by decide)⟩

theorem isPrefixOf_append_self (pat x : List Char) :
    pat.isPrefixOf (pat ++ x) = true := by
  induction pat with
  | nil => simp [List.isPrefixOf]
  | cons p ps ih => simp [List.isPrefixOf, ih]

theorem indexOfSub_append_self {pat : List Char} (hne : pat ≠ []) (x : List Char) :
    indexOfSub pat (pat ++ x) = some 0 := by
  rcases pat with _ | ⟨p, ps⟩
  · exact absurd rfl hne
  · show indexOfSub (p :: ps) ((p :: ps) ++ x) = some 0
    rw [List.cons_append]
    unfold indexOfSub
    rw [← List.cons_append, isPrefixOf_append_self]
    simp

theorem endsLit_append_self (pat x : List Char) :
    endsLit pat (x ++ pat) = true := by
  unfold endsLit
  rw [List.reverse_append]
  exact isPrefixOf_append_self pat.reverse x.reverse

/-- Claim C7 counterexample: for a streaming CDATA value ending in the
    partial terminator ]], the extractor keeps the partial terminator in the
    returned text instead of dropping it, contradicting the claim that a
    partial ]]> terminator is dropped. -/
theorem c7_counterexample_partial_terminator :
    extractParams (("<parameter name=\"p\"><![CDATA[abc]]").toList) =
      [⟨("p").toList, ("abc]]").toList, true⟩] ∧
    ("abc]]").toList ≠ ("abc").toList := by
  constructor
  · decide
  · decide

/-- Claim C7 as amended: a CDATA-wrapped value is returned as its inner text
    with whitespace preserved and a complete trailing ]]> terminator dropped;
    a partial trailing terminator is kept as part of the text; a value with
    no CDATA opener is trimmed at both ends. -/
theorem c7_cdata_handling_amended :
    (∀ v : List Char,
        postProcessValue (cdataOpenLit ++ v ++ cdataCloseLit) = v) ∧
    (∀ v : List Char, endsLit cdataCloseLit v = false →
        postProcessValue (cdataOpenLit ++ v) = v) ∧
    (∀ v : List Char, containsSub cdataOpenLit v = false →
        postProcessValue v = jsTrim v) := by
  refine ⟨?_, ?_, ?_⟩
  · intro v
    unfold postProcessValue
    rw [List.append_assoc,
      indexOfSub_append_self (by decide) (v ++ cdataCloseLit)]
    simp only [Nat.zero_add, List.drop_left, endsLit_append_self,
      if_true, List.length_append, Nat.add_sub_cancel, List.take_left]
  · intro v hv
    unfold postProcessValue
    rw [indexOfSub_append_self (by decide) v]
    simp [hv]
  · intro v hv
    unfold postProcessValue
    have : indexOfSub cdataOpenLit v = none := by
      unfold containsSub at hv
      exact Option.not_isSome_iff_eq_none.mp (by rw [hv]; exact Bool.false_ne_true)
    rw [this]

/-- Witness for the amended C7 at concrete values. -/
theorem c7_cdata_handling_amended_witness :
    postProcessValue (cdataOpenLit ++ ("  a b ").toList ++ cdataCloseLit) =
      ("  a b ").toList ∧
    postProcessValue (cdataOpenLit ++ ("ab]]").toList) = ("ab]]").toList ∧
    postProcessValue (("  ab  ").toList) = jsTrim (("  ab  ").toList) := by
  refine ⟨c7_cdata_handling_amended.1 (("  a b ").toList),
    c7_cdata_handling_amended.2.1 (("ab]]").toList) (by decide),
    c7_cdata_handling_amended.2.2 (("  ab  ").toList) (by decide)⟩

/-!
Auto-execution scheduler model (functionBlock.ts lines 60-70, 248-378,
658-858).  Ledger keys are modelled as String; the external persistent
storage and the execute-button click handler live outside src and are
modelled from the spec where needed.
-/

/-- Default auto-execution setting if not specified by user
    (functionBlock.ts line 61). -/
def DEFAULT_AUTO_EXECUTE : Bool := true

/-- Maximum number of retry attempts before giving up on auto-execution
    (functionBlock.ts line 64). -/
def MAX_AUTO_EXECUTE_ATTEMPTS : ℕ := 8

/-- Base delay of the exponential backoff inside the retry loop
    (functionBlock.ts line 841). -/
def retryBaseDelay : ℚ := 150

/-- Cap of the exponential backoff inside the retry loop
    (functionBlock.ts line 842). -/
def retryMaxDelay : ℚ := 1000

/-- The delay scheduled after retry attempt n before attempt n+1
    (functionBlock.ts line 843):
    Math.min(baseDelay * Math.pow(1.5, retryCount - 1), maxDelay).
    All values reached for n at most 8 are exactly representable as
    binary doubles, so rationals model the JS float arithmetic exactly. -/
def retryDelay (n : ℕ) : ℚ :=
  min (retryBaseDelay * (3 / 2) ^ (n - 1)) retryMaxDelay

/-- Claim C5: the delay scheduled after retry attempt n equals
    min(150 * 1.5^(n-1), 1000) ms, delays are monotone non-decreasing in n,
    never exceed one second, and start at 150 ms. -/
theorem c5_retry_backoff (n : ℕ) (_hn : 1 ≤ n) :
    retryDelay n = min (150 * (3 / 2) ^ (n - 1) : ℚ) 1000 ∧
    (∀ m, n ≤ m → retryDelay n ≤ retryDelay m) ∧
    retryDelay n ≤ 1000 ∧
    retryDelay 1 = 150 := by
  refine ⟨rfl, ?_, min_le_right _ _, by norm_num [retryDelay, retryBaseDelay, retryMaxDelay]⟩
  intro m hm
  unfold retryDelay
  refine min_le_min (mul_le_mul_of_nonneg_left ?_ (by norm_num [retryBaseDelay])) le_rfl
  exact pow_le_pow_right₀ (by norm_num) (Nat.sub_le_sub_right hm 1)

/-- Witness for C5 at n = 3. -/
theorem c5_retry_backoff_witness :
    retryDelay 3 = min (150 * (3 / 2) ^ (3 - 1) : ℚ) 1000 ∧
    retryDelay 3 ≤ retryDelay 7 ∧
    retryDelay 3 ≤ 1000 := by
  have h := c5_retry_backoff 3 (by decide)
  exact ⟨h.1, h.2.1 7 (by decide), h.2.2.1⟩

/-- Resolution of the user auto-execute preference when the execute button
    is first added (functionBlock.ts lines 660-668): if the stored setting
    is undefined it is set to DEFAULT_AUTO_EXECUTE, an explicit setting is
    kept; the first component is the effective enabled flag
    (toggleState.autoExecute === true), the second the stored value after
    the visit. -/
def resolveAutoExecuteSetting : Option Bool → Bool × Option Bool
  | none => (DEFAULT_AUTO_EXECUTE, some DEFAULT_AUTO_EXECUTE)
  | some b => (b, some b)

/-- Claim C10: an undefined auto-execute preference is set to true (the
    default) when a call first becomes complete, so by default the call is
    auto-executed; an explicit true or false setting is respected
    unchanged. -/
theorem c10_default_auto_execute :
    resolveAutoExecuteSetting none = (true, some true) ∧
    (∀ b : Bool, resolveAutoExecuteSetting (some b) = (b, some b)) := by
  exact ⟨rfl, fun b => rfl⟩

/-- Modelled from the spec: the persistent-storage subsystem consumed via
    getPreviousExecution / getPreviousExecutionLegacy (spec section 6) is a
    key/value lookup of executed-call records, keyed by
    (functionName, callId, signature), plus legacy records keyed by
    (callId, signature) only. -/
structure StorageState where
  records : List (String × String × String)
  legacyRecords : List (String × String)
deriving DecidableEq

/-- Modelled from the spec: getPreviousExecution(functionName, callId,
    signature) returns the stored record or null. -/
def getPreviousExecution (st : StorageState) (functionName callId sg : String) :
    Option Unit :=
  if (functionName, callId, sg) ∈ st.records then some () else none

/-- Modelled from the spec: getPreviousExecutionLegacy(callId, signature)
    returns the stored legacy record or null. -/
def getPreviousExecutionLegacy (st : StorageState) (callId sg : String) :
    Option Unit :=
  if (callId, sg) ∈ st.legacyRecords then some () else none

/-- The in-process execution tracker (functionBlock.ts lines 273-378):
    attempts per block, executed block ids, executed function keys. -/
structure ExecutionTracker where
  attempts : List (String × ℕ)
  executed : List String
  executedFunctions : List String
deriving DecidableEq

def emptyTracker : ExecutionTracker := ⟨[], [], []⟩

/-- JS String.prototype.split(sep) for the single-character separator used
    by the tracker key format. -/
def splitColsGo : List Char → List Char → List String
  | [], acc => [String.mk acc.reverse]
  | c :: cs, acc =>
    if c = ':' then String.mk acc.reverse :: splitColsGo cs []
    else splitColsGo cs (c :: acc)

def splitCols (s : String) : List String := splitColsGo s.toList []

/-- Set-insertion into the tracker's executedFunctions (a JS Set: adding an
    already-present key is a no-op). -/
def insertOnce (l : List String) (k : String) : List String :=
  if k ∈ l then l else l ++ [k]

/-- executionTracker.isFunctionExecuted (functionBlock.ts lines 278-334):
    with a function name, check the in-process set under the name-qualified
    key and the name-qualified storage record; without one, scan the
    in-process set for a three-part key with matching callId and signature
    (any hit returns true); finally fall back to the legacy un-qualified
    keys in the set and legacy storage. -/
def isFunctionExecuted (tr : ExecutionTracker) (st : StorageState)
    (callId contentSignature : String) (functionName : Option String) : Bool :=
  let standard :=
    match functionName with
    | some nm =>
      let key := nm ++ ":" ++ callId ++ ":" ++ contentSignature
      tr.executedFunctions.contains key ||
        (getPreviousExecution st nm callId contentSignature).isSome
    | none => false
  if standard then true
  else
    let extracted :=
      match functionName with
      | some _ => false
      | none =>
        tr.executedFunctions.any fun key =>
          match splitCols key with
          | [_, c, s] => c = callId && s = contentSignature
          | _ => false
    if extracted then true
    else
      let legacyKey := callId ++ ":" ++ contentSignature
      let legacyKey2 := ":" ++ callId ++ ":" ++ contentSignature
      tr.executedFunctions.contains legacyKey ||
        tr.executedFunctions.contains legacyKey2 ||
        (getPreviousExecutionLegacy st callId contentSignature).isSome

/-- The key under which markFunctionExecuted records an execution
    (functionBlock.ts lines 336-354): name-qualified when a nonempty (after
    trimming) function name is given, legacy two-part otherwise. -/
def trackerKey (functionName : Option String) (callId contentSignature : String) :
    String :=
  match functionName with
  | some nm =>
    if 0 < (String.mk (jsTrim nm.toList)).length then
      nm ++ ":" ++ callId ++ ":" ++ contentSignature
    else callId ++ ":" ++ contentSignature
  | none => callId ++ ":" ++ contentSignature

/-- executionTracker.markFunctionExecuted (functionBlock.ts lines 336-354). -/
def markFunctionExecuted (tr : ExecutionTracker) (callId contentSignature : String)
    (functionName : Option String) : ExecutionTracker :=
  { tr with executedFunctions :=
      insertOnce tr.executedFunctions (trackerKey functionName callId contentSignature) }

/-- executionTracker.isBlockExecuted (functionBlock.ts lines 356-358). -/
def isBlockExecuted (tr : ExecutionTracker) (blockId : String) : Bool :=
  tr.executed.contains blockId

/-- executionTracker.markBlockExecuted (functionBlock.ts lines 360-362). -/
def markBlockExecuted (tr : ExecutionTracker) (blockId : String) :
    ExecutionTracker :=
  { tr with executed := insertOnce tr.executed blockId }

/-- executionTracker.getAttempts (functionBlock.ts lines 364-366). -/
def getAttempts (tr : ExecutionTracker) (blockId : String) : ℕ :=
  match tr.attempts.lookup blockId with
  | some n => n
  | none => 0

/-- The JS stringification applied to the possibly-null content signature
    when it is interpolated into a tracker key (template literal). -/
def sigToStr : Option String → String
  | some s => s
  | none => "null"

/-- JS truthiness of the possibly-null, possibly-empty content signature. -/
def optTruthy : Option String → Bool
  | some s => s ≠ ""
  | none => false

/-- Environment oracle for one auto-execution setup: what the retry closure
    observes at each attempt number n (external storage contents, the
    execute button found by the two lookup strategies and its disabled
    state, whether dispatching the click throws), what the direct phase
    observes, and the live user toggle (which the retry closure in the
    source never reads).  none for buttonAt means no button was found. -/
structure AutoExecEnv where
  toggleAt : ℕ → Option Bool
  directButton : Option Bool
  directClickOk : Bool
  storageHitAt : ℕ → Bool
  buttonAt : ℕ → Option Bool
  clickOkAt : ℕ → Bool

/-- Events of the auto-execution scheduler, in program order. -/
inductive AEv where
  | markFn (key : String)
  | markBlock (blockId : String)
  | attempt (n : ℕ)
  | click (n : ℕ)
  | sleep (ms : ℚ)
  | stopLedger (n : ℕ)
  | giveUp
deriving DecidableEq

/-- The bounded retry loop (functionBlock.ts lines 770-848), one invocation
    per remaining-budget step: after incrementing, an invocation with
    retryCount above the ceiling returns without attempting or scheduling
    (giveUp); otherwise it stops if storage already shows the execution,
    else performs an attempt: a found enabled button is clicked (done on
    success), and on failure the next invocation is scheduled after the
    backoff delay.  remaining is the budget MAX_AUTO_EXECUTE_ATTEMPTS+1-n
    so the recursion is structural. -/
def retryGo (env : AutoExecEnv) : ℕ → ℕ → List AEv
  | 0, _ => [.giveUp]
  | remaining + 1, n =>
    if env.storageHitAt n then [.stopLedger n]
    else
      .attempt n ::
        (if env.buttonAt n = some false then
          (if env.clickOkAt n then [.click n]
           else .sleep (retryDelay n) :: retryGo env remaining (n + 1))
         else .sleep (retryDelay n) :: retryGo env remaining (n + 1))

/-- The full trace of one retry loop started by setupAutoExecution
    (first invocation has retryCount 1, the ceiling is 8). -/
def retryFrom (env : AutoExecEnv) : List AEv :=
  retryGo env MAX_AUTO_EXECUTE_ATTEMPTS 1

def isAttemptEv : AEv → Bool
  | .attempt _ => true
  | _ => false

def isClickEv : AEv → Bool
  | .click _ => true
  | _ => false

theorem retryGo_attempts_le (env : AutoExecEnv) :
    ∀ (remaining n : ℕ), (retryGo env remaining n).countP isAttemptEv ≤ remaining := by
  intro remaining
  induction remaining with
  | zero => intro n; simp [retryGo, isAttemptEv]
  | succ remaining ih =>
    intro n
    unfold retryGo
    by_cases hst : env.storageHitAt n = true
    · simp [hst, isAttemptEv]
    · have ihn := ih (n + 1)
      by_cases hb : env.buttonAt n = some false
      · by_cases hck : env.clickOkAt n = true
        · simp [hst, hb, hck, List.countP_cons, isAttemptEv]
        · simp only [hst, hb, hck, Bool.false_eq_true, if_false, if_true,
            eq_self_iff_true, if_neg, Bool.not_eq_true]
          simp [List.countP_cons, isAttemptEv]
          omega
      · simp only [hst, hb, Bool.not_eq_true] at *
        simp [hst, hb, List.countP_cons, isAttemptEv]
        omega

theorem retryGo_all_fail (env : AutoExecEnv)
    (hs : ∀ n, env.storageHitAt n = false)
    (hf : ∀ n, env.buttonAt n = none) :
    ∀ (remaining n : ℕ),
      (retryGo env remaining n).countP isAttemptEv = remaining ∧
      (retryGo env remaining n).getLast? = some .giveUp ∧
      (retryGo env remaining n).countP isClickEv = 0 := by
  intro remaining
  induction remaining with
  | zero =>
    intro n
    simp [retryGo, isAttemptEv, isClickEv]
  | succ remaining ih =>
    intro n
    obtain ⟨ih1, ih2, ih3⟩ := ih (n + 1)
    have hne : retryGo env remaining (n + 1) ≠ [] := by
      intro hnil
      rw [hnil] at ih2
      simp at ih2
    have hb : ¬ env.buttonAt n = some false := by rw [hf n]; simp
    unfold retryGo
    rw [hs n, if_neg hb]
    simp only [Bool.false_eq_true, if_false]
    refine ⟨?_, ?_, ?_⟩
    · simp [List.countP_cons, isAttemptEv, ih1]
    · rcases hl : retryGo env remaining (n + 1) with _ | ⟨x, xs⟩
      · exact absurd hl hne
      · rw [hl] at ih2
        rw [List.getLast?_cons_cons, List.getLast?_cons_cons]
        exact ih2
    · simp [List.countP_cons, isAttemptEv, isClickEv, ih3]

/-- Claim C4: the bounded retry loop performs at most 8 attempts; when
    every attempt fails (button never found, no successful activation) and
    storage never reports the execution, exactly 8 attempts happen, no
    click is ever dispatched, and the loop ends permanently with the
    give-up invocation that attempts and schedules nothing further. -/
theorem c4_retry_ceiling (env : AutoExecEnv)
    (hs : ∀ n, env.storageHitAt n = false)
    (hf : ∀ n, env.buttonAt n = none) :
    (∀ env' : AutoExecEnv, (retryFrom env').countP isAttemptEv ≤ 8) ∧
    (retryFrom env).countP isAttemptEv = 8 ∧
    (retryFrom env).countP isClickEv = 0 ∧
    (retryFrom env).getLast? = some .giveUp := by
  obtain ⟨h1, h2, h3⟩ := retryGo_all_fail env hs hf MAX_AUTO_EXECUTE_ATTEMPTS 1
  exact ⟨fun env' => retryGo_attempts_le env' MAX_AUTO_EXECUTE_ATTEMPTS 1,
    h1, h3, h2⟩

/-- A concrete environment in which the execute button is never found and
    storage never reports the execution. -/
def allFailEnv : AutoExecEnv :=
  { toggleAt := fun _ => some true
    directButton := none
    directClickOk := false
    storageHitAt := fun _ => false
    buttonAt := fun _ => none
    clickOkAt := fun _ => false }

/-- Witness for C4 at the all-fail environment. -/
theorem c4_retry_ceiling_witness :
    (retryFrom allFailEnv).countP isAttemptEv = 8 ∧
    (retryFrom allFailEnv).countP isClickEv = 0 ∧
    (retryFrom allFailEnv).getLast? = some .giveUp :=
  (c4_retry_ceiling allFailEnv (fun _ => rfl) (fun _ => rfl)).2

def isSleepEv : AEv → Bool
  | .sleep _ => true
  | _ => false

/-- The direct execution phase executeDirectly (functionBlock.ts lines
    740-758): look for the button in the known container; if found and
    enabled, click it (true on success, false if the click throws or the
    button is missing or disabled). -/
def directPhase (env : AutoExecEnv) : List AEv × Bool :=
  if env.directButton = some false then
    (if env.directClickOk then ([.attempt 0, .click 0], true) else ([.attempt 0], false))
  else ([.attempt 0], false)

/-- The synchronous tail of renderFunctionCall once all auto-execution
    pre-checks pass (functionBlock.ts lines 708-858), as an event trace:
    mark the ledger entry and the block (twice, lines 710-711 and 734-737),
    then the direct attempt; only if that fails, suspend 50 ms and run the
    bounded retry loop. -/
def autoExecProceedTrace (env : AutoExecEnv)
    (functionName extractedCallId blockId : String)
    (contentSignature : Option String) : List AEv :=
  let key := trackerKey (some functionName) extractedCallId (sigToStr contentSignature)
  let direct := directPhase env
  .markFn key :: .markBlock blockId :: .markBlock blockId ::
    ((if optTruthy contentSignature then [.markFn key] else []) ++
      direct.1 ++
      (if direct.2 then [] else .sleep 50 :: retryFrom env))

/-- The decision taken when the execute button is first added for a complete
    call (functionBlock.ts lines 658-703): storage-only already-executed
    check (only when a truthy signature exists, name-qualified key), then
    the strict auto-execute toggle check, then the in-progress block check
    (which also requires a positive attempt count). -/
inductive GateResult where
  | stopAlreadyExecuted
  | stopDisabled
  | stopInProgress
  | proceed
deriving DecidableEq

def autoExecGate (tr : ExecutionTracker) (st : StorageState) (toggle : Option Bool)
    (functionName extractedCallId blockId : String)
    (contentSignature : Option String) : GateResult :=
  if (if optTruthy contentSignature then
        (getPreviousExecution st functionName extractedCallId
          (sigToStr contentSignature)).isSome
      else false) then .stopAlreadyExecuted
  else if (resolveAutoExecuteSetting toggle).1 = false then .stopDisabled
  else if isBlockExecuted tr blockId = true ∧ 0 < getAttempts tr blockId then
    .stopInProgress
  else .proceed

/-- The tracker writes performed synchronously on the proceed path
    (functionBlock.ts lines 710-711 and 733-737). -/
def markPhase (tr : ExecutionTracker) (functionName extractedCallId : String)
    (contentSignature : Option String) (blockId : String) : ExecutionTracker :=
  let tr1 := markFunctionExecuted tr extractedCallId (sigToStr contentSignature)
    (some functionName)
  let tr2 := markBlockExecuted tr1 blockId
  let tr3 := markBlockExecuted tr2 blockId
  if optTruthy contentSignature then
    markFunctionExecuted tr3 extractedCallId (sigToStr contentSignature)
      (some functionName)
  else tr3

/-- The whole auto-execution setup at button-add time: gate decision,
    tracker state after the synchronous marks, and the scheduled event
    trace (empty unless the gate proceeds). -/
def autoExecSetup (env : AutoExecEnv) (tr : ExecutionTracker) (st : StorageState)
    (toggle : Option Bool) (functionName extractedCallId blockId : String)
    (contentSignature : Option String) :
    GateResult × ExecutionTracker × List AEv :=
  match autoExecGate tr st toggle functionName extractedCallId blockId
    contentSignature with
  | .proceed =>
    (.proceed, markPhase tr functionName extractedCallId contentSignature blockId,
      autoExecProceedTrace env functionName extractedCallId blockId contentSignature)
  | r => (r, tr, [])

theorem insertOnce_mem (l : List String) (k : String) : k ∈ insertOnce l k := by
  unfold insertOnce
  split
  · assumption
  · simp

theorem insertOnce_mem_of_mem {l : List String} {k : String} (k' : String)
    (h : k ∈ l) : k ∈ insertOnce l k' := by
  unfold insertOnce
  split
  · assumption
  · simp [h]

theorem markPhase_key_mem (tr : ExecutionTracker)
    (functionName extractedCallId : String) (contentSignature : Option String)
    (blockId : String) :
    trackerKey (some functionName) extractedCallId (sigToStr contentSignature) ∈
      (markPhase tr functionName extractedCallId contentSignature blockId).executedFunctions := by
  unfold markPhase markFunctionExecuted markBlockExecuted
  split
  · exact insertOnce_mem_of_mem _ (insertOnce_mem _ _)
  · exact insertOnce_mem _ _

/-- Claim C3: on the auto-execution path, once the pre-checks pass, the
    ledger entry for (callId, signature, name) is in the in-process set
    after the synchronous mark phase; in the scheduled event trace the mark
    is the very first event, so every click attempt (direct or retried) and
    every timer suspension strictly follows the mark. -/
theorem c3_mark_before_suspension_and_click
    (env : AutoExecEnv) (tr : ExecutionTracker) (st : StorageState)
    (toggle : Option Bool) (functionName extractedCallId blockId : String)
    (sig : Option String)
    (hp : autoExecGate tr st toggle functionName extractedCallId blockId sig =
      .proceed) :
    trackerKey (some functionName) extractedCallId (sigToStr sig) ∈
      (autoExecSetup env tr st toggle functionName extractedCallId blockId
        sig).2.1.executedFunctions ∧
    (autoExecSetup env tr st toggle functionName extractedCallId blockId
        sig).2.2.head? =
      some (.markFn (trackerKey (some functionName) extractedCallId (sigToStr sig))) ∧
    (∀ i ev,
      (autoExecSetup env tr st toggle functionName extractedCallId blockId
        sig).2.2.get? i = some ev →
      isClickEv ev = true ∨ isSleepEv ev = true →
      ∃ j, j < i ∧
        (autoExecSetup env tr st toggle functionName extractedCallId blockId
          sig).2.2.get? j =
          some (.markFn (trackerKey (some functionName) extractedCallId (sigToStr sig)))) := by
  unfold autoExecSetup
  rw [hp]
  refine ⟨markPhase_key_mem tr functionName extractedCallId sig blockId, rfl, ?_⟩
  intro i ev hev hkind
  refine ⟨0, ?_, rfl⟩
  rcases i with _ | i
  · rw [show (autoExecProceedTrace env functionName extractedCallId blockId
        sig).get? 0 = some (.markFn (trackerKey (some functionName)
          extractedCallId (sigToStr sig))) from rfl] at hev
    cases hev
    rcases hkind with hk | hk <;> simp [isClickEv, isSleepEv] at hk
  · exact Nat.succ_pos i

/-- Witness for C3 at a concrete proceed state. -/
theorem c3_mark_before_suspension_and_click_witness :
    trackerKey (some "f") "c1" (sigToStr (some "s1")) ∈
      (autoExecSetup allFailEnv emptyTracker ⟨[], []⟩ (some true) "f" "c1" "b1"
        (some "s1")).2.1.executedFunctions ∧
    (∃ j, j < 5 ∧
      (autoExecSetup allFailEnv emptyTracker ⟨[], []⟩ (some true) "f" "c1" "b1"
        (some "s1")).2.2.get? j =
        some (.markFn (trackerKey (some "f") "c1" (sigToStr (some "s1"))))) := by
  have h := c3_mark_before_suspension_and_click allFailEnv emptyTracker ⟨[], []⟩
    (some true) "f" "c1" "b1" (some "s1") (by decide)
  exact ⟨h.1, h.2.2 5 (.sleep 50) (by decide) (by decide)⟩

/-- A tracker whose in-process set already holds the name-qualified key
    f:c1:s1 (for example because the same call signature was scheduled from
    another block in this page lifetime). -/
def c2Tracker : ExecutionTracker :=
  { attempts := [], executed := [], executedFunctions := ["f:c1:s1"] }

/-- External storage with no records at all. -/
def emptyStorage : StorageState := ⟨[], []⟩

/-- Claim C2 counterexample: the Ledger (per its own tiered isFunctionExecuted
    lookup: in-process set first, then storage, then legacy keys) reports the
    call executed, yet the scheduler gate at button-add time proceeds —
    marking the tracker and scheduling attempts — because the code consults
    only external storage there, never the in-process set or legacy keys. -/
theorem c2_counterexample_inprocess_set_ignored :
    isFunctionExecuted c2Tracker emptyStorage "c1" "s1" (some "f") = true ∧
    (autoExecSetup allFailEnv c2Tracker emptyStorage (some true) "f" "c1" "b1"
      (some "s1")).1 = .proceed ∧
    (autoExecSetup allFailEnv c2Tracker emptyStorage (some true) "f" "c1" "b1"
      (some "s1")).2.2.head? = some (.markFn "f:c1:s1") := by
  refine ⟨by decide, by decide, by decide⟩

/-- Claim C2 as amended: when the execute button is first added for a
    complete call, the scheduler consults only external storage, with the
    name-qualified key and only when a truthy content signature is
    available; if that storage lookup reports the call executed, it stops
    as a no-op — no activation, no retries scheduled, no new Ledger
    writes.  The in-process set and the legacy keys are not consulted at
    this decision point. -/
theorem c2_storage_noop_amended (env : AutoExecEnv) (tr : ExecutionTracker)
    (st : StorageState) (toggle : Option Bool)
    (functionName extractedCallId blockId sg : String)
    (hsg : sg ≠ "")
    (hrec : (functionName, extractedCallId, sg) ∈ st.records) :
    autoExecSetup env tr st toggle functionName extractedCallId blockId
      (some sg) = (.stopAlreadyExecuted, tr, []) := by
  have hgate : autoExecGate tr st toggle functionName extractedCallId blockId
      (some sg) = .stopAlreadyExecuted := by
    unfold autoExecGate
    have h1 : optTruthy (some sg) = true := by simp [optTruthy, hsg]
    have h2 : (getPreviousExecution st functionName extractedCallId
        (sigToStr (some sg))).isSome = true := by
      simp [getPreviousExecution, sigToStr, hrec]
    rw [h1, if_pos rfl, h2, if_pos rfl]
  unfold autoExecSetup
  rw [hgate]

/-- Witness for the amended C2 at a concrete storage state. -/
theorem c2_storage_noop_amended_witness :
    autoExecSetup allFailEnv emptyTracker ⟨[("f", "c1", "s1")], []⟩ (some true)
      "f" "c1" "b1" (some "s1") = (.stopAlreadyExecuted, emptyTracker, []) :=
  c2_storage_noop_amended allFailEnv emptyTracker ⟨[("f", "c1", "s1")], []⟩
    (some true) "f" "c1" "b1" "s1" (by decide) (by decide)

/-- The final check of the periodic scanner's scheduled click
    (functionBlock.ts lines 213-226): it re-reads the live toggle at click
    time and clicks only when the toggle is exactly true, the button is
    enabled and the button is marked auto-exec ready. -/
def scannerTimeoutFires (toggleNow : Option Bool) (disabled ready : Bool) : Bool :=
  if toggleNow = some true then !disabled && ready else false

/-- An environment in which the user toggle is off for the whole retry
    lifetime (disabled right after scheduling), storage never reports the
    execution, and the button is found enabled at the first retry. -/
def c9Env : AutoExecEnv :=
  { toggleAt := fun _ => some false
    directButton := none
    directClickOk := false
    storageHitAt := fun _ => false
    buttonAt := fun n => if n = 1 then some false else none
    clickOkAt := fun _ => true }

/-- Claim C9 counterexample: the auto-execute flag is off at every moment of
    the retry lifetime, yet the retry loop still dispatches a click at
    attempt 1 — the retry closure never re-reads the flag, so disabling it
    after scheduling does not prevent subsequent attempts from activating
    the control. -/
theorem c9_counterexample_retry_ignores_toggle :
    c9Env.toggleAt 1 = some false ∧ .click 1 ∈ retryFrom c9Env := by
  refine ⟨rfl, by decide⟩

/-- Claim C9 as amended: the auto-execute flag is read fresh at the initial
    scheduling decision (a disabled flag stops the scheduler before any
    marking) and by the periodic scanner at each scheduled click; but the
    bounded retry loop never re-reads it — its trace is unchanged under any
    modification of the live toggle, so disabling the flag after scheduling
    does not prevent the remaining retry attempts. -/
theorem c9_toggle_reads_amended :
    (∀ (env : AutoExecEnv) (f : ℕ → Option Bool) (remaining n : ℕ),
        retryGo { env with toggleAt := f } remaining n = retryGo env remaining n) ∧
    (∀ (tr : ExecutionTracker) (st : StorageState) (toggle : Option Bool)
        (functionName extractedCallId blockId : String) (sig : Option String),
        (resolveAutoExecuteSetting toggle).1 = false →
        autoExecGate tr st toggle functionName extractedCallId blockId sig =
            .stopAlreadyExecuted ∨
        autoExecGate tr st toggle functionName extractedCallId blockId sig =
            .stopDisabled) ∧
    (∀ (toggleNow : Option Bool) (disabled ready : Bool),
        toggleNow ≠ some true →
        scannerTimeoutFires toggleNow disabled ready = false) := by
  refine ⟨?_, ?_, ?_⟩
  · intro env f remaining
    induction remaining with
    | zero => intro n; rfl
    | succ remaining ih =>
      intro n
      unfold retryGo
      rw [ih (n + 1)]
  · intro tr st toggle functionName extractedCallId blockId sig hoff
    by_cases ha : (if optTruthy sig = true then
        (getPreviousExecution st functionName extractedCallId (sigToStr sig)).isSome
      else false) = true
    · left
      unfold autoExecGate
      rw [if_pos ha]
    · right
      unfold autoExecGate
      rw [if_neg ha, hoff, if_pos rfl]
  · intro toggleNow disabled ready hne
    unfold scannerTimeoutFires
    rw [if_neg hne]

/-- Witness for the amended C9 at concrete inputs. -/
theorem c9_toggle_reads_amended_witness :
    retryGo { allFailEnv with toggleAt := fun _ => some false } 8 1 =
      retryGo allFailEnv 8 1 ∧
    (autoExecGate emptyTracker emptyStorage (some false) "f" "c1" "b1"
        (some "s1") = .stopAlreadyExecuted ∨
     autoExecGate emptyTracker emptyStorage (some false) "f" "c1" "b1"
        (some "s1") = .stopDisabled) ∧
    scannerTimeoutFires (some false) false true = false := by
  refine ⟨c9_toggle_reads_amended.1 allFailEnv (fun _ => some false) 8 1,
    c9_toggle_reads_amended.2.1 emptyTracker emptyStorage (some false) "f" "c1"
      "b1" (some "s1") (by decide),
    c9_toggle_reads_amended.2.2 (some false) false true (by decide)⟩

/-!
At-most-once model (claim C1).  All trigger paths in one page lifetime —
the DOM-mutation-driven scheduler's direct and retry attempts
(functionBlock.ts lines 740-848), the periodic execute-button scanner
(lines 179-232) and manual clicks — are interleaved as single steps of one
relation over the page state.  Every click site in the source checks the
control's disabled state in the same synchronous turn as the click; the
scanner additionally re-reads the live toggle and the auto-exec-ready
attribute, but consults neither the tracker nor storage. -/

/-- One rendered execute button together with the call identity of its
    block and its actionable state. -/
structure Control where
  blockId : String
  functionName : String
  callId : String
  signature : String
  disabled : Bool
  ready : Bool
deriving DecidableEq

/-- The shared page state: rendered controls, the in-process tracker,
    external storage, the live toggle and the log of activations
    (indices of clicked controls, in order). -/
structure PageState where
  controls : List Control
  tracker : ExecutionTracker
  storage : StorageState
  toggle : Option Bool
  activations : List ℕ
deriving DecidableEq

/-- Modelled from the spec: activating the action control performs the
    external execution side effect (the click handler of the component
    that addExecuteButton installs, outside src), marks the Ledger for the
    control's (name, callId, signature), and renders the control
    non-actionable — its actionable/disabled state being the
    orchestrator's only observable success signal. -/
def activateControl (s : PageState) (i : ℕ) : PageState :=
  match s.controls[i]? with
  | none => s
  | some c =>
    { s with
      controls := s.controls.set i { c with disabled := true }
      tracker := markFunctionExecuted s.tracker c.callId c.signature
        (some c.functionName)
      activations := s.activations ++ [i] }

/-- One interleaved step of any trigger path.  Click steps require the
    clicked control to be enabled (checked synchronously at every click
    site in the source); the scanner's click additionally requires the
    live toggle to be exactly true and the ready attribute
    (functionBlock.ts lines 213-226); no click path consults the Ledger
    about the control's key before clicking, except through these guards. -/
inductive PageStep : PageState → PageState → Prop where
  | scannerClick (s : PageState) (i : ℕ) (c : Control)
      (hc : s.controls[i]? = some c) (ht : s.toggle = some true)
      (hd : c.disabled = false) (hr : c.ready = true) :
      PageStep s (activateControl s i)
  | directClick (s : PageState) (i : ℕ) (c : Control)
      (hc : s.controls[i]? = some c) (hd : c.disabled = false) :
      PageStep s (activateControl s i)
  | retryClick (s : PageState) (i : ℕ) (c : Control)
      (hc : s.controls[i]? = some c) (hd : c.disabled = false) :
      PageStep s (activateControl s i)
  | manualClick (s : PageState) (i : ℕ) (c : Control)
      (hc : s.controls[i]? = some c) (hd : c.disabled = false) :
      PageStep s (activateControl s i)
  | setToggle (s : PageState) (b : Option Bool) :
      PageStep s { s with toggle := b }
  | addControl (s : PageState) (c : Control) :
      PageStep s { s with controls := s.controls ++ [c] }

/-- The inductive invariant: every control index was activated at most
    once, an activated index points at a now-disabled control, and the
    Ledger set holds no duplicate keys. -/
def PageInv (s : PageState) : Prop :=
  (∀ i, s.activations.count i ≤ 1) ∧
  (∀ i ∈ s.activations, ∃ c, s.controls[i]? = some c ∧ c.disabled = true) ∧
  s.tracker.executedFunctions.Nodup

theorem insertOnce_nodup {l : List String} (k : String) (h : l.Nodup) :
    (insertOnce l k).Nodup := by
  unfold insertOnce
  split
  · exact h
  · rename_i hk
    simp [List.nodup_append, h, hk]

theorem activateControl_inv {s : PageState} {i : ℕ} {c : Control}
    (hc : s.controls[i]? = some c) (hd : c.disabled = false)
    (hinv : PageInv s) : PageInv (activateControl s i) := by
  obtain ⟨h1, h2, h3⟩ := hinv
  have hi : i ∉ s.activations := by
    intro hmem
    obtain ⟨c', hc', hdis⟩ := h2 i hmem
    rw [hc] at hc'
    cases hc'
    rw [hd] at hdis
    exact Bool.false_ne_true hdis
  have hlen : i < s.controls.length := by
    by_contra hlt
    rw [List.getElem?_eq_none (Nat.le_of_not_lt hlt)] at hc
    cases hc
  unfold activateControl
  rw [hc]
  refine ⟨?_, ?_, insertOnce_nodup _ h3⟩
  · intro j
    simp only [List.count_append]
    by_cases hj : j = i
    · subst hj
      rw [List.count_eq_zero.mpr hi]
      simp [List.count_singleton_self]
    · rw [List.count_singleton]
      have : (i == j) = false := by simp [Ne.symm hj]
      rw [this]
      simpa using h1 j
  · intro j hj
    rcases List.mem_append.mp hj with hj | hj
    · obtain ⟨c', hc', hdis⟩ := h2 j hj
      have hji : i ≠ j := by
        intro hij
        subst hij
        exact hi hj
      refine ⟨c', ?_, hdis⟩
      simp only [List.getElem?_set_ne hji]
      exact hc'
    · have hji : j = i := by simpa using hj
      subst hji
      refine ⟨{ c with disabled := true }, ?_, rfl⟩
      simp [List.getElem?_set_self hlen]

theorem pageStep_inv {s s' : PageState} (hs : PageStep s s') (hinv : PageInv s) :
    PageInv s' := by
  cases hs with
  | scannerClick i c hc ht hd hr => exact activateControl_inv hc hd hinv
  | directClick i c hc hd => exact activateControl_inv hc hd hinv
  | retryClick i c hc hd => exact activateControl_inv hc hd hinv
  | manualClick i c hc hd => exact activateControl_inv hc hd hinv
  | setToggle b =>
    obtain ⟨h1, h2, h3⟩ := hinv
    exact ⟨h1, h2, h3⟩
  | addControl c =>
    obtain ⟨h1, h2, h3⟩ := hinv
    refine ⟨h1, ?_, h3⟩
    intro j hj
    obtain ⟨c', hc', hdis⟩ := h2 j hj
    have hlen : j < s.controls.length := by
      by_contra hlt
      rw [List.getElem?_eq_none (Nat.le_of_not_lt hlt)] at hc'
      cases hc'
    exact ⟨c', by rw [List.getElem?_append_left hlen]; exact hc', hdis⟩

/-- Claim C1 as amended: across all interleaved trigger paths of one page
    lifetime, each action control is activated at most once (every click
    site checks the control's actionable state in the same synchronous
    turn, and activation disables the control), and the Ledger set records
    each key at most once (set insertion is idempotent) — but at-most-once
    does not hold per (name, callId, signature) key across distinct
    controls, see the counterexample. -/
theorem c1_per_control_at_most_once (s0 s : PageState)
    (hact : s0.activations = []) (hnd : s0.tracker.executedFunctions.Nodup)
    (hsteps : Relation.ReflTransGen PageStep s0 s) :
    (∀ i, s.activations.count i ≤ 1) ∧ s.tracker.executedFunctions.Nodup := by
  have hinv0 : PageInv s0 := ⟨by simp [hact], by simp [hact], hnd⟩
  have hinv : PageInv s := by
    induction hsteps with
    | refl => exact hinv0
    | tail _ hstep ih => exact pageStep_inv hstep ih
  exact ⟨hinv.1, hinv.2.2⟩

def c1Control1 : Control := ⟨"b1", "f", "c", "s", false, true⟩

def c1Control2 : Control := ⟨"b2", "f", "c", "s", false, true⟩

/-- Two textually identical calls rendered from independent blocks: both
    controls carry the same (name, callId, signature), both enabled, the
    user toggle on, nothing executed yet. -/
def c1Start : PageState :=
  ⟨[c1Control1, c1Control2], emptyTracker, emptyStorage, some true, []⟩

def c1Mid : PageState := activateControl c1Start 0

def c1Final : PageState := activateControl c1Mid 1

/-- How many activations hit a control bearing the given
    (name, callId, signature) key. -/
def keyActivationCount (s : PageState) (nm cid sg : String) : ℕ :=
  (s.activations.filterMap fun i => s.controls[i]?).countP
    fun c => c.functionName == nm && (c.callId == cid && c.signature == sg)

/-- Witness for the amended C1 after one scanner activation. -/
theorem c1_per_control_at_most_once_witness :
    c1Mid.activations.count 0 ≤ 1 ∧
    c1Mid.tracker.executedFunctions.Nodup := by
  have h := c1_per_control_at_most_once c1Start c1Mid rfl (by decide)
    (Relation.ReflTransGen.single
      (PageStep.scannerClick c1Start 0 c1Control1 (by decide) rfl rfl rfl))
  exact ⟨h.1 0, h.2⟩

/-- Claim C1 counterexample: with two rendered blocks carrying the same
    (function name, call id, content signature), the periodic scanner —
    which checks only each control's own disabled/ready state and the
    toggle, never the Ledger — legally activates both controls in one page
    lifetime: the key is activated twice, though the Ledger set holds the
    key exactly once. -/
theorem c1_counterexample_same_key_two_activations :
    Relation.ReflTransGen PageStep c1Start c1Final ∧
    keyActivationCount c1Final "f" "c" "s" = 2 ∧
    c1Final.tracker.executedFunctions = ["f:c:s"] := by
  refine ⟨?_, by decide, by decide⟩
  have h1 : PageStep c1Start c1Mid :=
    PageStep.scannerClick c1Start 0 c1Control1 (by decide) rfl rfl rfl
  have h2 : PageStep c1Mid c1Final :=
    PageStep.scannerClick c1Mid 1 c1Control2 (by decide) (by decide) rfl rfl
  exact Relation.ReflTransGen.tail (Relation.ReflTransGen.single h1) h2

/-!
Render-diff model (claim C8).  The DOM subtree of one rendered block is
modelled by node counts and a keyed parameter list; renderFunctionCall
(functionBlock.ts lines 392-871) is embedded phase by phase in source
order, with the external parser results (containsFunctionCalls,
extractLanguageTag) as inputs since they are pure functions of the
unchanged text. -/

/-- Case-insensitive literal match (the invoke regex carries the i flag). -/
def dropLitCI : List Char → List Char → Option (List Char)
  | [], s => some s
  | _ :: _, [] => none
  | p :: ps, c :: cs => if c.toLower = p.toLower then dropLitCI ps cs else none

/-- Attempt to match the invoke regex
    <invoke name="([^"]+)"(?:\s+call_id="([^"]+)")?>  (i flag) anchored at
    the head of the input: name capture, then the optional call_id group
    with fallback to a direct > when the group does not match. -/
def matchInvokeAt (s : List Char) : Option (List Char × Option (List Char)) :=
  (dropLitCI ("<invoke name=").toList s).bind fun r1 =>
  (dropLit ['"'] r1).bind fun r1a =>
  (takeCap '"' r1a).bind fun pn =>
    match
      (dropWs1 pn.2).bind fun r2 =>
      (dropLitCI ("call_id=").toList r2).bind fun r3 =>
      (dropLit ['"'] r3).bind fun r3a =>
      (takeCap '"' r3a).bind fun pc =>
      (dropLit ['>'] pc.2).map fun _ => pc.1
    with
    | some cid => some (pn.1, some cid)
    | none => (dropLit ['>'] pn.2).map fun _ => (pn.1, none)

/-- The invoke regex applied at successive start positions
    (String.prototype.match, first match). -/
def matchInvoke : List Char → Option (List Char × Option (List Char))
  | [] => none
  | c :: cs =>
    match matchInvokeAt (c :: cs) with
    | some r => some r
    | none => matchInvoke cs

/-- functionName and callId as computed at functionBlock.ts lines 489-491:
    the captured name or the literal function, the captured call id or the
    block id. -/
def invokeInfo (content blockId : List Char) : List Char × List Char :=
  match matchInvoke content with
  | some (nm, some cid) => (nm, cid)
  | some (nm, none) => (nm, blockId)
  | none => (("function").toList, blockId)

/-- The DOM pair of one rendered parameter (one param-name node and one
    param-value node, keyed by the per-block param id, i.e. by name within
    one block), with its pre child and streaming attribute. -/
structure ParamDom where
  pname : List Char
  pvalue : List Char
  streamingAttr : Bool
  hasPre : Bool
deriving DecidableEq

/-- Creation branch of createOrUpdateParamElement (functionBlock.ts lines
    905-919, 925-948, 969-1029): fresh name and value nodes; a pre child
    and the streaming attribute exactly when the parameter streams. -/
def newParamDom (e : ParamEntry) : ParamDom :=
  ⟨e.pname, e.pvalue, e.streaming, e.streaming⟩

/-- Update branch of createOrUpdateParamElement: value patched in place,
    a pre child ensured while streaming (or while the previous streaming
    attribute is still set), the streaming attribute following the new
    streaming state. -/
def updateParamDom (p : ParamDom) (e : ParamEntry) : ParamDom :=
  { p with pvalue := e.pvalue,
           hasPre := p.hasPre || (e.streaming || p.streamingAttr),
           streamingAttr := e.streaming }

def hasParamNamed (ps : List ParamDom) (nm : List Char) : Bool :=
  ps.any fun p => p.pname == nm

/-- createOrUpdateParamElement (functionBlock.ts lines 882-1029) on the
    block's parameter list: the element pair is looked up by its param id
    and patched in place when present, created and appended otherwise. -/
def createOrUpdateParamDom (ps : List ParamDom) (e : ParamEntry) : List ParamDom :=
  if hasParamNamed ps e.pname then
    ps.map fun p => if p.pname == e.pname then updateParamDom p e else p
  else ps ++ [newParamDom e]

/-- The external tag-scanner result for one block (containsFunctionCalls,
    outside src): a pure function of the block text, so identical across
    two scans of unchanged text. -/
structure FunctionInfo where
  hasFunctionCalls : Bool
  isComplete : Bool
  languageTag : Option (List Char)
deriving DecidableEq

/-- Node counts and child state of one rendered block subtree. -/
structure BlockDom where
  loadingCls : Bool
  completeCls : Bool
  langTags : ℕ
  nameNodes : ℕ
  nameText : List Char
  callIdNodes : ℕ
  callIdText : List Char
  spinners : ℕ
  paramsContainers : ℕ
  params : List ParamDom
  spacers : ℕ
  buttonContainers : ℕ
  rawToggles : ℕ
  executeButtons : ℕ
deriving DecidableEq

def freshBlockDom : BlockDom :=
  ⟨false, false, 0, 0, [], 0, [], 0, 0, [], 0, 0, 0, 0⟩

/-- JS truthiness of an optional string (empty string falsy). -/
def optTruthyL : Option (List Char) → Bool
  | some v => !v.isEmpty
  | none => false

/-- Lifecycle-class phase (functionBlock.ts lines 452-485): on a new render
    add the loading class (and the language tag node) as appropriate; on an
    update handle the loading/complete transitions, removing the spinner on
    completion.  No counted node kind is created here. -/
def phaseStates (info : FunctionInfo) (tagExtract : Option (List Char))
    (preEx isNew : Bool) (prevComplete : Option Bool) (d : BlockDom) : BlockDom :=
  if isNew then
    if optTruthyL tagExtract || optTruthyL info.languageTag then
      if info.isComplete = false && preEx = false then
        { d with loadingCls := true, langTags := d.langTags + 1 }
      else { d with langTags := d.langTags + 1 }
    else
      if info.isComplete = false && preEx = false then
        { d with loadingCls := true }
      else d
  else
    if prevComplete = some false && info.isComplete then
      { d with loadingCls := false, completeCls := true,
               spinners := d.spinners - 1 }
    else if prevComplete = some true && info.isComplete = false then
      { d with completeCls := false, loadingCls := true }
    else d

/-- Function-name phase (functionBlock.ts lines 494-543): create the
    function-name node with its call-id badge and spinner when absent,
    otherwise patch the texts, creating the call-id badge only if missing
    and the call id is truthy. -/
def phaseName (info : FunctionInfo) (preEx : Bool)
    (functionName callId : List Char) (d : BlockDom) : BlockDom :=
  if d.nameNodes = 0 then
    { d with nameNodes := d.nameNodes + 1, nameText := functionName,
             callIdNodes := d.callIdNodes + (if callId.isEmpty then 0 else 1),
             callIdText := if callId.isEmpty then d.callIdText else callId,
             spinners := d.spinners +
               (if info.isComplete = false && preEx = false then 1 else 0) }
  else
    if callId.isEmpty then { d with nameText := functionName }
    else if d.callIdNodes = 0 then
      { d with nameText := functionName, callIdNodes := d.callIdNodes + 1,
               callIdText := callId }
    else { d with nameText := functionName, callIdText := callId }

/-- Parameter-container phase (functionBlock.ts lines 546-557). -/
def phaseParamsContainer (d : BlockDom) : BlockDom :=
  if d.paramsContainers = 0 then
    { d with paramsContainers := d.paramsContainers + 1 }
  else d

/-- Incremental parameter phase (functionBlock.ts lines 559-595): each
    extracted parameter is created or updated in document order. -/
def phaseParams (raw : List Char) (d : BlockDom) : BlockDom :=
  { d with params := (extractParams raw).foldl createOrUpdateParamDom d.params }

/-- Button-container phase (functionBlock.ts lines 622-633). -/
def phaseButtonContainer (d : BlockDom) : BlockDom :=
  if d.buttonContainers = 0 then
    { d with buttonContainers := d.buttonContainers + 1,
             spacers := d.spacers + 1 }
  else d

/-- Modelled from the spec for the appended control: addRawXmlToggle
    (outside src) appends one raw-content toggle; the guard on the
    existing .raw-toggle node is in src (functionBlock.ts line 636). -/
def phaseToggle (info : FunctionInfo) (d : BlockDom) : BlockDom :=
  if info.isComplete && d.rawToggles = 0 then
    { d with rawToggles := d.rawToggles + 1 }
  else d

/-- Modelled from the spec for the appended control: addExecuteButton
    (outside src) appends one execute button; the guard on the existing
    .execute-button node is in src (functionBlock.ts line 646). -/
def phaseExec (info : FunctionInfo) (d : BlockDom) : BlockDom :=
  if info.isComplete && d.executeButtons = 0 then
    { d with executeButtons := d.executeButtons + 1 }
  else d

/-- One run of the render-update path on one block (functionBlock.ts
    lines 392-871) restricted to its DOM effects: no-op when the text has
    no function call; otherwise the phases in source order, cut short
    before the button section when a new render finds no parent to insert
    into (line 617). -/
def renderMain (info : FunctionInfo) (tagExtract : Option (List Char))
    (raw nm cid : List Char) (preEx isNew : Bool) (prevComplete : Option Bool)
    (d0 : BlockDom) : BlockDom :=
  phaseParams raw (phaseParamsContainer
    (phaseName info preEx nm cid
      (phaseStates info tagExtract preEx isNew prevComplete d0)))

def renderBlockDom (info : FunctionInfo) (tagExtract : Option (List Char))
    (raw content blockId : List Char) (preEx hasParent : Bool)
    (existing : Option BlockDom) : Option BlockDom :=
  if info.hasFunctionCalls = false then existing
  else
    let isNew := existing.isNone
    let prevComplete : Option Bool := existing.map fun d => !d.loadingCls
    let d0 := existing.getD freshBlockDom
    let nmcid := invokeInfo content blockId
    let d4 := renderMain info tagExtract raw nmcid.1 nmcid.2 preEx isNew
      prevComplete d0
    if isNew && !hasParent then some d4
    else some (phaseExec info (phaseToggle info (phaseButtonContainer d4)))

/-- The node counts the idempotence claim is about: function-name,
    call-id, param-name, param-value, raw-content-toggle and
    execute-button nodes of the block (each params entry holds exactly one
    param-name and one param-value node). -/
def domCounts : Option BlockDom → ℕ × ℕ × ℕ × ℕ × ℕ × ℕ
  | none => (0, 0, 0, 0, 0, 0)
  | some d => (d.nameNodes, d.callIdNodes, d.params.length, d.params.length,
      d.rawToggles, d.executeButtons)

theorem hasParamNamed_map_update (ps : List ParamDom) (e : ParamEntry)
    (nm : List Char) :
    hasParamNamed (ps.map fun p => if p.pname == e.pname then
      updateParamDom p e else p) nm = hasParamNamed ps nm := by
  induction ps with
  | nil => rfl
  | cons p ps ih =>
    unfold hasParamNamed at *
    simp only [List.map_cons, List.any_cons]
    rw [show (if p.pname == e.pname then updateParamDom p e else p).pname =
      p.pname from by split <;> rfl]
    rw [ih]

theorem createOrUpdate_length_of_has {ps : List ParamDom} {e : ParamEntry}
    (h : hasParamNamed ps e.pname = true) :
    (createOrUpdateParamDom ps e).length = ps.length := by
  unfold createOrUpdateParamDom
  rw [if_pos h]
  simp

theorem createOrUpdate_has_self (ps : List ParamDom) (e : ParamEntry) :
    hasParamNamed (createOrUpdateParamDom ps e) e.pname = true := by
  unfold createOrUpdateParamDom
  split
  · rw [hasParamNamed_map_update]
    assumption
  · unfold hasParamNamed
    simp [newParamDom]

theorem createOrUpdate_has_mono {ps : List ParamDom} {nm : List Char}
    (e : ParamEntry) (h : hasParamNamed ps nm = true) :
    hasParamNamed (createOrUpdateParamDom ps e) nm = true := by
  unfold createOrUpdateParamDom
  split
  · rw [hasParamNamed_map_update]
    exact h
  · unfold hasParamNamed at *
    simp only [List.any_append]
    rw [h]
    rfl

theorem foldl_has_mono (es : List ParamEntry) {ps : List ParamDom}
    {nm : List Char} (h : hasParamNamed ps nm = true) :
    hasParamNamed (es.foldl createOrUpdateParamDom ps) nm = true := by
  induction es generalizing ps with
  | nil => exact h
  | cons e es ih => exact ih (createOrUpdate_has_mono e h)

theorem foldl_has_all (es : List ParamEntry) (ps : List ParamDom) :
    ∀ e ∈ es, hasParamNamed (es.foldl createOrUpdateParamDom ps) e.pname = true := by
  induction es generalizing ps with
  | nil => intro e he; cases he
  | cons e' es ih =>
    intro e he
    rcases List.mem_cons.mp he with rfl | he
    · exact foldl_has_mono es (createOrUpdate_has_self ps e)
    · exact ih _ e he

theorem foldl_length_of_has (es : List ParamEntry) (ps : List ParamDom)
    (h : ∀ e ∈ es, hasParamNamed ps e.pname = true) :
    (es.foldl createOrUpdateParamDom ps).length = ps.length := by
  induction es generalizing ps with
  | nil => rfl
  | cons e es ih =>
    rw [List.foldl_cons]
    rw [ih (createOrUpdateParamDom ps e)
      (fun e' he' => createOrUpdate_has_mono e (h e' (List.mem_cons_of_mem e he')))]
    exact createOrUpdate_length_of_has (h e (List.mem_cons_self e es))

theorem phaseStates_fields (info : FunctionInfo) (tagExtract : Option (List Char))
    (preEx isNew : Bool) (prevComplete : Option Bool) (d : BlockDom) :
    (phaseStates info tagExtract preEx isNew prevComplete d).nameNodes = d.nameNodes ∧
    (phaseStates info tagExtract preEx isNew prevComplete d).callIdNodes = d.callIdNodes ∧
    (phaseStates info tagExtract preEx isNew prevComplete d).paramsContainers = d.paramsContainers ∧
    (phaseStates info tagExtract preEx isNew prevComplete d).buttonContainers = d.buttonContainers ∧
    (phaseStates info tagExtract preEx isNew prevComplete d).rawToggles = d.rawToggles ∧
    (phaseStates info tagExtract preEx isNew prevComplete d).executeButtons = d.executeButtons ∧
    (phaseStates info tagExtract preEx isNew prevComplete d).params = d.params := by
  unfold phaseStates
  split_ifs <;> exact ⟨rfl, rfl, rfl, rfl, rfl, rfl, rfl⟩

theorem phaseName_create (info : FunctionInfo) (preEx : Bool)
    (functionName callId : List Char) (d : BlockDom) (hn : d.nameNodes = 0) :
    (phaseName info preEx functionName callId d).nameNodes = d.nameNodes + 1 ∧
    (phaseName info preEx functionName callId d).callIdNodes =
      d.callIdNodes + (if callId.isEmpty then 0 else 1) ∧
    (phaseName info preEx functionName callId d).paramsContainers = d.paramsContainers ∧
    (phaseName info preEx functionName callId d).buttonContainers = d.buttonContainers ∧
    (phaseName info preEx functionName callId d).rawToggles = d.rawToggles ∧
    (phaseName info preEx functionName callId d).executeButtons = d.executeButtons ∧
    (phaseName info preEx functionName callId d).params = d.params := by
  unfold phaseName
  rw [if_pos hn]
  exact ⟨rfl, rfl, rfl, rfl, rfl, rfl, rfl⟩

theorem phaseName_update (info : FunctionInfo) (preEx : Bool)
    (functionName callId : List Char) (d : BlockDom) (hn : d.nameNodes ≠ 0)
    (hcid : callId.isEmpty = false → d.callIdNodes ≠ 0) :
    (phaseName info preEx functionName callId d).nameNodes = d.nameNodes ∧
    (phaseName info preEx functionName callId d).callIdNodes = d.callIdNodes ∧
    (phaseName info preEx functionName callId d).paramsContainers = d.paramsContainers ∧
    (phaseName info preEx functionName callId d).buttonContainers = d.buttonContainers ∧
    (phaseName info preEx functionName callId d).rawToggles = d.rawToggles ∧
    (phaseName info preEx functionName callId d).executeButtons = d.executeButtons ∧
    (phaseName info preEx functionName callId d).params = d.params := by
  unfold phaseName
  rw [if_neg hn]
  by_cases hemp : callId.isEmpty = true
  · rw [if_pos hemp]
    exact ⟨rfl, rfl, rfl, rfl, rfl, rfl, rfl⟩
  · have hemp' : callId.isEmpty = false := by
      cases h : callId.isEmpty
      · rfl
      · exact absurd h hemp
    rw [if_neg hemp, if_neg (hcid hemp')]
    exact ⟨rfl, rfl, rfl, rfl, rfl, rfl, rfl⟩

theorem phaseParamsContainer_skip {d : BlockDom} (h : d.paramsContainers ≠ 0) :
    phaseParamsContainer d = d := by
  unfold phaseParamsContainer
  rw [if_neg h]

theorem phaseButtonContainer_skip {d : BlockDom} (h : d.buttonContainers ≠ 0) :
    phaseButtonContainer d = d := by
  unfold phaseButtonContainer
  rw [if_neg h]

theorem phaseToggle_skip {info : FunctionInfo} {d : BlockDom}
    (h : info.isComplete = true → d.rawToggles ≠ 0) :
    phaseToggle info d = d := by
  unfold phaseToggle
  cases hc : info.isComplete
  · rw [if_neg (by simp [hc])]
  · rw [if_neg (by simp [hc, h hc])]

theorem phaseExec_skip {info : FunctionInfo} {d : BlockDom}
    (h : info.isComplete = true → d.executeButtons ≠ 0) :
    phaseExec info d = d := by
  unfold phaseExec
  cases hc : info.isComplete
  · rw [if_neg (by simp [hc])]
  · rw [if_neg (by simp [hc, h hc])]

theorem phaseParams_fields (raw : List Char) (d : BlockDom) :
    (phaseParams raw d).nameNodes = d.nameNodes ∧
    (phaseParams raw d).callIdNodes = d.callIdNodes ∧
    (phaseParams raw d).paramsContainers = d.paramsContainers ∧
    (phaseParams raw d).buttonContainers = d.buttonContainers ∧
    (phaseParams raw d).rawToggles = d.rawToggles ∧
    (phaseParams raw d).executeButtons = d.executeButtons ∧
    (phaseParams raw d).params = (extractParams raw).foldl createOrUpdateParamDom d.params :=
  ⟨rfl, rfl, rfl, rfl, rfl, rfl, rfl⟩

theorem phaseParamsContainer_create {d : BlockDom} (h : d.paramsContainers = 0) :
    (phaseParamsContainer d).nameNodes = d.nameNodes ∧
    (phaseParamsContainer d).callIdNodes = d.callIdNodes ∧
    (phaseParamsContainer d).paramsContainers = d.paramsContainers + 1 ∧
    (phaseParamsContainer d).buttonContainers = d.buttonContainers ∧
    (phaseParamsContainer d).rawToggles = d.rawToggles ∧
    (phaseParamsContainer d).executeButtons = d.executeButtons ∧
    (phaseParamsContainer d).params = d.params := by
  unfold phaseParamsContainer
  rw [if_pos h]
  exact ⟨rfl, rfl, rfl, rfl, rfl, rfl, rfl⟩

theorem phaseButtonContainer_create {d : BlockDom} (h : d.buttonContainers = 0) :
    (phaseButtonContainer d).nameNodes = d.nameNodes ∧
    (phaseButtonContainer d).callIdNodes = d.callIdNodes ∧
    (phaseButtonContainer d).paramsContainers = d.paramsContainers ∧
    (phaseButtonContainer d).buttonContainers = d.buttonContainers + 1 ∧
    (phaseButtonContainer d).rawToggles = d.rawToggles ∧
    (phaseButtonContainer d).executeButtons = d.executeButtons ∧
    (phaseButtonContainer d).params = d.params := by
  unfold phaseButtonContainer
  rw [if_pos h]
  exact ⟨rfl, rfl, rfl, rfl, rfl, rfl, rfl⟩

theorem phaseToggle_fields (info : FunctionInfo) (d : BlockDom) :
    (phaseToggle info d).nameNodes = d.nameNodes ∧
    (phaseToggle info d).callIdNodes = d.callIdNodes ∧
    (phaseToggle info d).paramsContainers = d.paramsContainers ∧
    (phaseToggle info d).buttonContainers = d.buttonContainers ∧
    (phaseToggle info d).rawToggles =
      (if info.isComplete && d.rawToggles = 0 then d.rawToggles + 1
       else d.rawToggles) ∧
    (phaseToggle info d).executeButtons = d.executeButtons ∧
    (phaseToggle info d).params = d.params := by
  unfold phaseToggle
  split_ifs <;> exact ⟨rfl, rfl, rfl, rfl, rfl, rfl, rfl⟩

theorem phaseExec_fields (info : FunctionInfo) (d : BlockDom) :
    (phaseExec info d).nameNodes = d.nameNodes ∧
    (phaseExec info d).callIdNodes = d.callIdNodes ∧
    (phaseExec info d).paramsContainers = d.paramsContainers ∧
    (phaseExec info d).buttonContainers = d.buttonContainers ∧
    (phaseExec info d).rawToggles = d.rawToggles ∧
    (phaseExec info d).executeButtons =
      (if info.isComplete && d.executeButtons = 0 then d.executeButtons + 1
       else d.executeButtons) ∧
    (phaseExec info d).params = d.params := by
  unfold phaseExec
  split_ifs <;> exact ⟨rfl, rfl, rfl, rfl, rfl, rfl, rfl⟩

theorem renderMain_first_facts (info : FunctionInfo)
    (tagExtract : Option (List Char)) (raw nm cid : List Char)
    (preEx isNew : Bool) (prevComplete : Option Bool) :
    (renderMain info tagExtract raw nm cid preEx isNew prevComplete
      freshBlockDom).nameNodes = 1 ∧
    (renderMain info tagExtract raw nm cid preEx isNew prevComplete
      freshBlockDom).callIdNodes = (if cid.isEmpty then 0 else 1) ∧
    (renderMain info tagExtract raw nm cid preEx isNew prevComplete
      freshBlockDom).paramsContainers = 1 ∧
    (renderMain info tagExtract raw nm cid preEx isNew prevComplete
      freshBlockDom).buttonContainers = 0 ∧
    (renderMain info tagExtract raw nm cid preEx isNew prevComplete
      freshBlockDom).rawToggles = 0 ∧
    (renderMain info tagExtract raw nm cid preEx isNew prevComplete
      freshBlockDom).executeButtons = 0 ∧
    (renderMain info tagExtract raw nm cid preEx isNew prevComplete
      freshBlockDom).params = (extractParams raw).foldl createOrUpdateParamDom [] := by
  obtain ⟨a1, a2, a3, a4, a5, a6, a7⟩ :=
    phaseStates_fields info tagExtract preEx isNew prevComplete freshBlockDom
  obtain ⟨b1, b2, b3, b4, b5, b6, b7⟩ :=
    phaseName_create info preEx nm cid
      (phaseStates info tagExtract preEx isNew prevComplete freshBlockDom)
      (by rw [a1]; rfl)
  obtain ⟨c1, c2, c3, c4, c5, c6, c7⟩ :=
    phaseParamsContainer_create
      (d := phaseName info preEx nm cid
        (phaseStates info tagExtract preEx isNew prevComplete freshBlockDom))
      (by rw [b3, a3]; rfl)
  obtain ⟨p1, p2, p3, p4, p5, p6, p7⟩ :=
    phaseParams_fields raw
      (phaseParamsContainer (phaseName info preEx nm cid
        (phaseStates info tagExtract preEx isNew prevComplete freshBlockDom)))
  unfold renderMain
  refine ⟨?_, ?_, ?_, ?_, ?_, ?_, ?_⟩
  · rw [p1, c1, b1, a1]; rfl
  · rw [p2, c2, b2, a2]; exact Nat.zero_add _
  · rw [p3, c3, b3, a3]; rfl
  · rw [p4, c4, b4, a4]; rfl
  · rw [p5, c5, b5, a5]; rfl
  · rw [p6, c6, b6, a6]; rfl
  · rw [p7, c7, b7, a7]; rfl

theorem renderMain_update_facts (info : FunctionInfo)
    (tagExtract : Option (List Char)) (raw nm cid : List Char)
    (preEx isNew : Bool) (prevC : Option Bool) (d : BlockDom)
    (hn : d.nameNodes ≠ 0) (hcid : cid.isEmpty = false → d.callIdNodes ≠ 0)
    (hpc : d.paramsContainers ≠ 0)
    (hnames : ∀ e ∈ extractParams raw, hasParamNamed d.params e.pname = true) :
    (renderMain info tagExtract raw nm cid preEx isNew prevC d).nameNodes = d.nameNodes ∧
    (renderMain info tagExtract raw nm cid preEx isNew prevC d).callIdNodes = d.callIdNodes ∧
    (renderMain info tagExtract raw nm cid preEx isNew prevC d).paramsContainers = d.paramsContainers ∧
    (renderMain info tagExtract raw nm cid preEx isNew prevC d).buttonContainers = d.buttonContainers ∧
    (renderMain info tagExtract raw nm cid preEx isNew prevC d).rawToggles = d.rawToggles ∧
    (renderMain info tagExtract raw nm cid preEx isNew prevC d).executeButtons = d.executeButtons ∧
    (renderMain info tagExtract raw nm cid preEx isNew prevC d).params.length = d.params.length := by
  obtain ⟨a1, a2, a3, a4, a5, a6, a7⟩ :=
    phaseStates_fields info tagExtract preEx isNew prevC d
  obtain ⟨b1, b2, b3, b4, b5, b6, b7⟩ :=
    phaseName_update info preEx nm cid
      (phaseStates info tagExtract preEx isNew prevC d)
      (by rw [a1]; exact hn) (fun hemp => by rw [a2]; exact hcid hemp)
  have hC : phaseParamsContainer (phaseName info preEx nm cid
      (phaseStates info tagExtract preEx isNew prevC d)) =
      phaseName info preEx nm cid (phaseStates info tagExtract preEx isNew prevC d) :=
    phaseParamsContainer_skip (by rw [b3, a3]; exact hpc)
  obtain ⟨p1, p2, p3, p4, p5, p6, p7⟩ :=
    phaseParams_fields raw (phaseParamsContainer (phaseName info preEx nm cid
      (phaseStates info tagExtract preEx isNew prevC d)))
  unfold renderMain
  refine ⟨?_, ?_, ?_, ?_, ?_, ?_, ?_⟩
  · rw [p1, hC, b1, a1]
  · rw [p2, hC, b2, a2]
  · rw [p3, hC, b3, a3]
  · rw [p4, hC, b4, a4]
  · rw [p5, hC, b5, a5]
  · rw [p6, hC, b6, a6]
  · rw [p7, hC, b7, a7]
    exact foldl_length_of_has _ _ hnames

theorem first_run_counts (info : FunctionInfo) (tagExtract : Option (List Char))
    (raw nm cid : List Char) (preEx isNew : Bool) (prevC : Option Bool) :
    (phaseExec info (phaseToggle info (phaseButtonContainer (renderMain info tagExtract raw nm cid preEx isNew prevC freshBlockDom)))).nameNodes = 1 ∧
    (phaseExec info (phaseToggle info (phaseButtonContainer (renderMain info tagExtract raw nm cid preEx isNew prevC freshBlockDom)))).callIdNodes = (if cid.isEmpty then 0 else 1) ∧
    (phaseExec info (phaseToggle info (phaseButtonContainer (renderMain info tagExtract raw nm cid preEx isNew prevC freshBlockDom)))).paramsContainers = 1 ∧
    (phaseExec info (phaseToggle info (phaseButtonContainer (renderMain info tagExtract raw nm cid preEx isNew prevC freshBlockDom)))).buttonContainers = 1 ∧
    (info.isComplete = true → (phaseExec info (phaseToggle info (phaseButtonContainer (renderMain info tagExtract raw nm cid preEx isNew prevC freshBlockDom)))).rawToggles ≠ 0) ∧
    (info.isComplete = true → (phaseExec info (phaseToggle info (phaseButtonContainer (renderMain info tagExtract raw nm cid preEx isNew prevC freshBlockDom)))).executeButtons ≠ 0) ∧
    (phaseExec info (phaseToggle info (phaseButtonContainer (renderMain info tagExtract raw nm cid preEx isNew prevC freshBlockDom)))).params = (extractParams raw).foldl createOrUpdateParamDom [] := by
  obtain ⟨m1, m2, m3, m4, m5, m6, m7⟩ :=
    renderMain_first_facts info tagExtract raw nm cid preEx isNew prevC
  obtain ⟨u1, u2, u3, u4, u5, u6, u7⟩ :=
    phaseButtonContainer_create (d := renderMain info tagExtract raw nm cid preEx isNew prevC freshBlockDom) m4
  obtain ⟨v1, v2, v3, v4, v5, v6, v7⟩ :=
    phaseToggle_fields info (phaseButtonContainer (renderMain info tagExtract raw nm cid preEx isNew prevC freshBlockDom))
  obtain ⟨w1, w2, w3, w4, w5, w6, w7⟩ :=
    phaseExec_fields info (phaseToggle info (phaseButtonContainer
      (renderMain info tagExtract raw nm cid preEx isNew prevC freshBlockDom)))
  refine ⟨?_, ?_, ?_, ?_, ?_, ?_, ?_⟩
  · rw [w1, v1, u1, m1]
  · rw [w2, v2, u2, m2]
  · rw [w3, v3, u3, m3]
  · rw [w4, v4, u4, m4]
  · intro hc
    rw [w5, v5, u5, m5]
    simp [hc]
  · intro hc
    rw [w6, v6, u6, m6]
    simp [hc]
  · rw [w7, v7, u7, m7]

theorem second_run_counts (info : FunctionInfo) (tagExtract : Option (List Char))
    (raw nm cid : List Char) (preEx isNew : Bool) (prevC : Option Bool)
    (b : BlockDom)
    (hn : b.nameNodes ≠ 0) (hcid : cid.isEmpty = false → b.callIdNodes ≠ 0)
    (hpc : b.paramsContainers ≠ 0) (hbc : b.buttonContainers ≠ 0)
    (ht : info.isComplete = true → b.rawToggles ≠ 0)
    (hx : info.isComplete = true → b.executeButtons ≠ 0)
    (hnames : ∀ e ∈ extractParams raw, hasParamNamed b.params e.pname = true) :
    (phaseExec info (phaseToggle info (phaseButtonContainer (renderMain info tagExtract raw nm cid preEx isNew prevC b)))).nameNodes = b.nameNodes ∧
    (phaseExec info (phaseToggle info (phaseButtonContainer (renderMain info tagExtract raw nm cid preEx isNew prevC b)))).callIdNodes = b.callIdNodes ∧
    (phaseExec info (phaseToggle info (phaseButtonContainer (renderMain info tagExtract raw nm cid preEx isNew prevC b)))).rawToggles = b.rawToggles ∧
    (phaseExec info (phaseToggle info (phaseButtonContainer (renderMain info tagExtract raw nm cid preEx isNew prevC b)))).executeButtons = b.executeButtons ∧
    (phaseExec info (phaseToggle info (phaseButtonContainer (renderMain info tagExtract raw nm cid preEx isNew prevC b)))).params.length = b.params.length := by
  obtain ⟨r1, r2, r3, r4, r5, r6, r7⟩ :=
    renderMain_update_facts info tagExtract raw nm cid preEx isNew prevC b
      hn hcid hpc hnames
  have k1 : phaseButtonContainer (renderMain info tagExtract raw nm cid preEx isNew prevC b) = renderMain info tagExtract raw nm cid preEx isNew prevC b :=
    phaseButtonContainer_skip (by rw [r4]; exact hbc)
  have k2 : phaseToggle info (renderMain info tagExtract raw nm cid preEx isNew prevC b) = renderMain info tagExtract raw nm cid preEx isNew prevC b :=
    phaseToggle_skip (fun hc => by rw [r5]; exact ht hc)
  have k3 : phaseExec info (renderMain info tagExtract raw nm cid preEx isNew prevC b) = renderMain info tagExtract raw nm cid preEx isNew prevC b :=
    phaseExec_skip (fun hc => by rw [r6]; exact hx hc)
  refine ⟨?_, ?_, ?_, ?_, ?_⟩
  · rw [k1, k2, k3, r1]
  · rw [k1, k2, k3, r2]
  · rw [k1, k2, k3, r5]
  · rw [k1, k2, k3, r6]
  · rw [k1, k2, k3, r7]

/-- Claim C8: running the render-update path twice in a row on the same
    attached block with unchanged text is idempotent on DOM structure: the
    second run creates no additional function-name, call-id, param-name,
    param-value, raw-content-toggle or execute-button nodes for the block. -/
theorem c8_render_idempotent (info : FunctionInfo) (tagExtract : Option (List Char))
    (raw content blockId : List Char) (preEx hasParent : Bool)
    (hp : hasParent = true) :
    domCounts (renderBlockDom info tagExtract raw content blockId preEx hasParent
      (renderBlockDom info tagExtract raw content blockId preEx hasParent none)) =
      domCounts (renderBlockDom info tagExtract raw content blockId preEx hasParent none) := by
  subst hp
  by_cases hfc : info.hasFunctionCalls = false
  · have h0 : renderBlockDom info tagExtract raw content blockId preEx true none = none := by
      unfold renderBlockDom
      rw [if_pos hfc]
    rw [h0, h0]
  · obtain ⟨e1, e2, e3, e4, e5, e6, e7⟩ :=
      first_run_counts info tagExtract raw (invokeInfo content blockId).1 (invokeInfo content blockId).2 preEx true none
    have h1 : renderBlockDom info tagExtract raw content blockId preEx true none =
        some (phaseExec info (phaseToggle info (phaseButtonContainer (renderMain info tagExtract raw (invokeInfo content blockId).1 (invokeInfo content blockId).2 preEx true none freshBlockDom)))) := by
      unfold renderBlockDom
      rw [if_neg hfc]
      rfl
    have h2 : renderBlockDom info tagExtract raw content blockId preEx true
        (some (phaseExec info (phaseToggle info (phaseButtonContainer (renderMain info tagExtract raw (invokeInfo content blockId).1 (invokeInfo content blockId).2 preEx true none freshBlockDom))))) = some (phaseExec info (phaseToggle info (phaseButtonContainer (renderMain info tagExtract raw (invokeInfo content blockId).1 (invokeInfo content blockId).2 preEx false (some (!(phaseExec info (phaseToggle info (phaseButtonContainer (renderMain info tagExtract raw (invokeInfo content blockId).1 (invokeInfo content blockId).2 preEx true none freshBlockDom)))).loadingCls)) (phaseExec info (phaseToggle info (phaseButtonContainer (renderMain info tagExtract raw (invokeInfo content blockId).1 (invokeInfo content blockId).2 preEx true none freshBlockDom)))))))) := by
      unfold renderBlockDom
      rw [if_neg hfc]
      rfl
    obtain ⟨s1, s2, s3, s4, s5⟩ :=
      second_run_counts info tagExtract raw (invokeInfo content blockId).1 (invokeInfo content blockId).2 preEx false
        (some (!(phaseExec info (phaseToggle info (phaseButtonContainer (renderMain info tagExtract raw (invokeInfo content blockId).1 (invokeInfo content blockId).2 preEx true none freshBlockDom)))).loadingCls)) (phaseExec info (phaseToggle info (phaseButtonContainer (renderMain info tagExtract raw (invokeInfo content blockId).1 (invokeInfo content blockId).2 preEx true none freshBlockDom))))
        (by rw [e1]; exact one_ne_zero)
        (fun hemp => by rw [e2, hemp]; simp)
        (by rw [e3]; exact one_ne_zero)
        (by rw [e4]; exact one_ne_zero)
        e5 e6
        (by
          intro e he
          rw [e7]
          exact foldl_has_all (extractParams raw) [] e he)
    rw [h1, h2]
    simp only [domCounts]
    rw [s1, s2, s3, s4, s5]

/-- Witness for C8 at the concrete completed scenario block. -/
theorem c8_render_idempotent_witness :
    domCounts (renderBlockDom ⟨true, true, none⟩ none scenarioCompleteRaw
      scenarioCompleteRaw (("b1").toList) false true
      (renderBlockDom ⟨true, true, none⟩ none scenarioCompleteRaw
        scenarioCompleteRaw (("b1").toList) false true none)) =
      domCounts (renderBlockDom ⟨true, true, none⟩ none scenarioCompleteRaw
        scenarioCompleteRaw (("b1").toList) false true none) :=
  c8_render_idempotent ⟨true, true, none⟩ none scenarioCompleteRaw
    scenarioCompleteRaw (("b1").toList) false true rfl
